import Mathlib

/-!
# totp-manager: verification of the encrypted storage engine and TOTP core

A shallow embedding, in Lean 4, of the core of the `totp-manager` Go
repository: the crypto wrappers (`internal/crypto`), the vault record model
and persistence engine (`internal/storage`), the authentication flow
(`internal/cli/root.go`), and the TOTP code generator.

Modelling conventions:

* Go byte slices and strings are modelled as `List Nat` (strings as lists of
  Unicode code points; byte slices as lists of byte values).
* Randomness (`crypto/rand.Read`) is passed in explicitly: every operation
  that reads random bytes in Go takes the random bytes as an argument.
* Fallible Go functions returning `(T, error)` become `Except E T` with one
  error constructor per distinct error return in the source.
* File-system effects are passed explicitly: file contents are arguments and
  results, and fallible writes/renames are driven by an explicit environment.
* External library primitives that the repository calls but does not define
  (Go's `crypto/aes` + `cipher.NewGCM`, `golang.org/x/crypto/argon2`,
  `encoding/json`, and the repository's own `internal/totp` package, which is
  absent from the sources) are modelled as noted on each definition.
-/

namespace TotpManager

/-- Truncate or zero-pad `xs` to exactly `n` elements.  This is the effect of
Go's `copy(dst, src)` into a freshly zeroed `n`-byte buffer, and of
`rand.Read` filling an `n`-byte buffer. -/
def fit (n : Nat) (xs : List Nat) : List Nat :=
  xs.take n ++ List.replicate (n - xs.length) 0

theorem fit_length (n : Nat) (xs : List Nat) : (fit n xs).length = n := by
  simp only [fit, List.length_append, List.length_take, List.length_replicate]
  omega

theorem fit_eq_self (n : Nat) (xs : List Nat) (h : xs.length = n) : fit n xs = xs := by
  simp [fit, h, List.take_of_length_le (le_of_eq h)]

theorem fit_fit (n : Nat) (xs : List Nat) : fit n (fit n xs) = fit n xs :=
  fit_eq_self n (fit n xs) (fit_length n xs)

/-- Model of `binary.LittleEndian.PutUint32`: the four little-endian bytes of `v`. -/
def putU32LE (v : Nat) : List Nat :=
  [v % 256, v / 256 % 256, v / 65536 % 256, v / 16777216 % 256]

/-- Model of `binary.LittleEndian.Uint32`: read four little-endian bytes. -/
def readU32LE (d : List Nat) : Nat :=
  d.getD 0 0 + d.getD 1 0 * 256 + d.getD 2 0 * 65536 + d.getD 3 0 * 16777216

theorem putU32LE_length (v : Nat) : (putU32LE v).length = 4 := rfl

theorem readU32LE_putU32LE (v : Nat) (r : List Nat) (h : v < 4294967296) :
    readU32LE (putU32LE v ++ r) = v := by
  simp only [putU32LE, readU32LE, List.cons_append, List.nil_append]
  simp only [List.getD_cons_zero, List.getD_cons_succ]
  omega

/-- Big-endian 4-byte rendering of `v mod 2^32` (GCM counter field). -/
def putU32BE (v : Nat) : List Nat :=
  [v / 16777216 % 256, v / 65536 % 256, v / 256 % 256, v % 256]

/-- Big-endian 8-byte rendering of `v mod 2^64` (TOTP counter, GCM lengths). -/
def putU64BE (v : Nat) : List Nat :=
  [v / 72057594037927936 % 256, v / 281474976710656 % 256,
   v / 1099511627776 % 256, v / 4294967296 % 256,
   v / 16777216 % 256, v / 65536 % 256, v / 256 % 256, v % 256]

/-- Pointwise XOR of two byte lists (Go loops of `a[i] ^ b[i]`). -/
def xorBytes (a b : List Nat) : List Nat :=
  List.zipWith Nat.xor a b

theorem xorBytes_length (a b : List Nat) :
    (xorBytes a b).length = min a.length b.length := by
  simp [xorBytes]

theorem xorBytes_xorBytes_cancel (p s : List Nat) (h : s.length = p.length) :
    xorBytes (xorBytes p s) s = p := by
  induction p generalizing s with
  | nil => simp [xorBytes]
  | cons x xs ih =>
    cases s with
    | nil => simp at h
    | cons y ys =>
      simp only [List.length_cons] at h
      simp only [xorBytes, List.zipWith_cons_cons]
      refine congrArg₂ List.cons ?_ (ih ys (by omega))
      exact Nat.xor_cancel_right y x

/-!
## AES-256 block cipher

Modelled from the spec: the repository encrypts with Go's `crypto/aes` +
`crypto/cipher.NewGCM` (AES-256-GCM), whose implementation is not part of the
repository sources.  The definitions below are a faithful executable
implementation of FIPS-197 AES-256 (validated against the FIPS-197 C.3 test
vector during development).
-/

/-- The AES S-box, packed as one natural number with byte `i` at bit `8*i`. -/
def sboxTable : Nat :=
  0x16bb54b00f2d99416842e6bf0d89a18cdf2855cee9871e9b948ed9691198f8e19e1dc186b95735610ef6034866b53e708a8bbd4b1f74dde8c6b4a61c2e2578ba08ae7a65eaf4566ca94ed58d6d37c8e779e4959162acd3c25c2406490a3a32e0db0b5ede14b8ee4688902a22dc4f816073195d643d7ea7c41744975fec130ccdd2f3ff1021dab6bcf5389d928f40a351a89f3c507f02f94585334d43fbaaefd0cf584c4a39becb6a5bb1fc20ed00d153842fe329b3d63b52a05a6e1b1a2c830975b227ebe28012079a059618c323c7041531d871f1e5a534ccf73f362693fdb7c072a49cafa2d4adf04759fa7dc982ca76abd7fe2b670130c56f6bf27b777c63

/-- S-box lookup. -/
def sbox (b : Nat) : Nat := (sboxTable >>> (8 * (b % 256))) &&& 255

/-- SubWord: apply the S-box to each byte of a 32-bit word. -/
def subWord (w : Nat) : Nat :=
  (sbox ((w >>> 24) &&& 255)) <<< 24 |||
  (sbox ((w >>> 16) &&& 255)) <<< 16 |||
  (sbox ((w >>> 8) &&& 255)) <<< 8 |||
  sbox (w &&& 255)

/-- RotWord: rotate a 32-bit word left by one byte. -/
def rotWord (w : Nat) : Nat := (((w <<< 8) ||| (w >>> 24)) &&& 4294967295)

/-- AES round constants for the 256-bit key schedule. -/
def rcon : List Nat := [1, 2, 4, 8, 16, 32, 64]

/-- One step of the AES-256 key schedule: word `i` (for `8 ≤ i`) from the
words accumulated so far. -/
def nextKeyWord (ws : List Nat) (i : Nat) : Nat :=
  let temp := ws.getD (i - 1) 0
  let temp :=
    if i % 8 = 0 then
      Nat.xor (subWord (rotWord temp)) ((rcon.getD (i / 8 - 1) 0) <<< 24)
    else if i % 8 = 4 then subWord temp
    else temp
  Nat.xor (ws.getD (i - 8) 0) temp

/-- A 32-bit word from four big-endian bytes. -/
def wordOfBytes (b0 b1 b2 b3 : Nat) : Nat :=
  (b0 % 256) <<< 24 ||| (b1 % 256) <<< 16 ||| (b2 % 256) <<< 8 ||| (b3 % 256)

/-- The four big-endian bytes of a 32-bit word. -/
def wordBytes (w : Nat) : List Nat :=
  [(w >>> 24) &&& 255, (w >>> 16) &&& 255, (w >>> 8) &&& 255, w &&& 255]

/-- AES-256 key expansion: 60 round-key words from a 32-byte key. -/
def expandKey (key : List Nat) : List Nat :=
  let k := fit 32 key
  let initial := (List.range 8).map fun i =>
    wordOfBytes (k.getD (4 * i) 0) (k.getD (4 * i + 1) 0)
      (k.getD (4 * i + 2) 0) (k.getD (4 * i + 3) 0)
  (List.range 52).foldl (fun ws j => ws ++ [nextKeyWord ws (j + 8)]) initial

/-- The 16 bytes of round key `r` (words `4r .. 4r+3`). -/
def roundKeyBytes (ws : List Nat) (r : Nat) : List Nat :=
  wordBytes (ws.getD (4 * r) 0) ++ wordBytes (ws.getD (4 * r + 1) 0) ++
  wordBytes (ws.getD (4 * r + 2) 0) ++ wordBytes (ws.getD (4 * r + 3) 0)

/-- AddRoundKey: XOR the state with the round key. -/
def addRoundKey (s rk : List Nat) : List Nat := xorBytes s rk

/-- SubBytes: apply the S-box to every state byte. -/
def subBytes (s : List Nat) : List Nat := s.map sbox

/-- ShiftRows on the column-major 16-byte state. -/
def shiftRows (s : List Nat) : List Nat :=
  let g := fun i => s.getD i 0
  [g 0, g 5, g 10, g 15, g 4, g 9, g 14, g 3,
   g 8, g 13, g 2, g 7, g 12, g 1, g 6, g 11]

/-- Multiplication by x in GF(2^8) (the AES `xtime`). -/
def mul2 (a : Nat) : Nat := ((a <<< 1) ^^^ (if 128 ≤ a % 256 then 27 else 0)) &&& 255

/-- Multiplication by x+1 in GF(2^8). -/
def mul3 (a : Nat) : Nat := Nat.xor (mul2 a) (a % 256)

/-- MixColumns on one column. -/
def mixColumn (a0 a1 a2 a3 : Nat) : List Nat :=
  [Nat.xor (Nat.xor (mul2 a0) (mul3 a1)) (Nat.xor (a2 % 256) (a3 % 256)),
   Nat.xor (Nat.xor (a0 % 256) (mul2 a1)) (Nat.xor (mul3 a2) (a3 % 256)),
   Nat.xor (Nat.xor (a0 % 256) (a1 % 256)) (Nat.xor (mul2 a2) (mul3 a3)),
   Nat.xor (Nat.xor (mul3 a0) (a1 % 256)) (Nat.xor (a2 % 256) (mul2 a3))]

/-- MixColumns on the 16-byte state. -/
def mixColumns (s : List Nat) : List Nat :=
  let g := fun i => s.getD i 0
  mixColumn (g 0) (g 1) (g 2) (g 3) ++ mixColumn (g 4) (g 5) (g 6) (g 7) ++
  mixColumn (g 8) (g 9) (g 10) (g 11) ++ mixColumn (g 12) (g 13) (g 14) (g 15)

/-- AES-256 block encryption of a 16-byte block. -/
def aesBlock (key block : List Nat) : List Nat :=
  let ws := expandKey key
  let s0 := addRoundKey (fit 16 block) (roundKeyBytes ws 0)
  let s := (List.range 13).foldl
    (fun s r => addRoundKey (mixColumns (shiftRows (subBytes s))) (roundKeyBytes ws (r + 1)))
    s0
  addRoundKey (shiftRows (subBytes s)) (roundKeyBytes ws 14)

theorem wordBytes_length (w : Nat) : (wordBytes w).length = 4 := rfl

theorem roundKeyBytes_length (ws : List Nat) (r : Nat) :
    (roundKeyBytes ws r).length = 16 := rfl

theorem shiftRows_length (s : List Nat) : (shiftRows s).length = 16 := rfl

theorem mixColumns_length (s : List Nat) : (mixColumns s).length = 16 := rfl

theorem subBytes_length (s : List Nat) : (subBytes s).length = s.length := by
  simp [subBytes]

theorem addRoundKey_length (s rk : List Nat) :
    (addRoundKey s rk).length = min s.length rk.length := by
  simp [addRoundKey, xorBytes]

theorem aesBlock_length (key block : List Nat) : (aesBlock key block).length = 16 := by
  have hstep : ∀ (s : List Nat) (ws : List Nat) (r : Nat), s.length = 16 →
      (addRoundKey (mixColumns (shiftRows (subBytes s))) (roundKeyBytes ws (r + 1))).length
        = 16 := by
    intro s ws r _
    simp [addRoundKey_length, mixColumns_length, roundKeyBytes_length]
  have hinv : ∀ (l : List Nat) (s : List Nat) (ws : List Nat), s.length = 16 →
      ((l.foldl (fun s r =>
        addRoundKey (mixColumns (shiftRows (subBytes s))) (roundKeyBytes ws (r + 1))) s).length)
        = 16 := by
    intro l
    induction l with
    | nil => intro s ws h; simpa using h
    | cons x xs ih =>
      intro s ws h
      exact ih _ ws (hstep s ws x h)
  simp only [aesBlock]
  have h0 : (addRoundKey (fit 16 block) (roundKeyBytes (expandKey key) 0)).length = 16 := by
    simp [addRoundKey_length, fit_length, roundKeyBytes_length]
  have := hinv (List.range 13) _ (expandKey key) h0
  simp [addRoundKey_length, shiftRows_length, roundKeyBytes_length]

/-!
## GCM mode

Modelled from the spec: Go's `crypto/cipher.NewGCM` (NIST SP 800-38D) with a
12-byte nonce and a 16-byte tag, validated against NIST test vectors during
development.  Plaintext "bytes" are arbitrary naturals (the serialized vault
in this embedding); the keystream masking and tag recomputation are exactly
GCM's.
-/

/-- A 128-bit integer from 16 big-endian bytes. -/
def bytesToNat128 (bs : List Nat) : Nat :=
  (fit 16 bs).foldl (fun acc b => acc * 256 + b % 256) 0

/-- The 16 big-endian bytes of a 128-bit integer. -/
def nat128ToBytes (x : Nat) : List Nat :=
  (List.range 16).map fun i => (x >>> (8 * (15 - i))) &&& 255

/-- Multiplication in GF(2^128) with GCM's reduction polynomial and bit
order. -/
def gf128Mul (x y : Nat) : Nat :=
  ((List.range 128).foldl
    (fun (zv : Nat × Nat) i =>
      let z := if Nat.testBit y (127 - i) then Nat.xor zv.1 zv.2 else zv.1
      let v := if zv.2 % 2 = 1
        then Nat.xor (zv.2 >>> 1) 0xE1000000000000000000000000000000
        else zv.2 >>> 1
      (z, v))
    (0, x)).1

/-- GHASH over a list of 16-byte blocks. -/
def ghashBlocks (h : Nat) (blocks : List (List Nat)) : Nat :=
  blocks.foldl (fun x blk => gf128Mul (Nat.xor x (bytesToNat128 blk)) h) 0

/-- Split a byte list into 16-byte blocks, zero-padding the last. -/
def toBlocks16 (bs : List Nat) : List (List Nat) :=
  (List.range ((bs.length + 15) / 16)).map fun i => fit 16 ((bs.drop (16 * i)).take 16)

/-- The GCM pre-counter block `J0` for a 12-byte nonce. -/
def gcmJ0 (nonce : List Nat) : List Nat := fit 12 nonce ++ putU32BE 1

/-- The `i`-th CTR counter block (`i = 2` is the first data block). -/
def gcmCounterBlock (nonce : List Nat) (i : Nat) : List Nat :=
  fit 12 nonce ++ putU32BE (i % 4294967296)

/-- The CTR keystream for `n` "bytes". -/
def gcmKeystream (key nonce : List Nat) (n : Nat) : List Nat :=
  ((List.range ((n + 15) / 16)).flatMap fun i =>
    aesBlock key (gcmCounterBlock nonce (i + 2))).take n

theorem gcmKeystream_length (key nonce : List Nat) (n : Nat) :
    (gcmKeystream key nonce n).length = n := by
  have hlen : ∀ (l : List Nat),
      ((l.flatMap fun i => aesBlock key (gcmCounterBlock nonce (i + 2))).length)
        = 16 * l.length := by
    intro l
    induction l with
    | nil => simp
    | cons x xs ih => simp [List.flatMap_cons, aesBlock_length, ih]; ring
  simp only [gcmKeystream, List.length_take, hlen, List.length_range]
  have h16 : (n + 15) % 16 < 16 := Nat.mod_lt _ (by omega)
  have := Nat.div_add_mod (n + 15) 16
  omega

/-- CTR masking: XOR the data with the keystream of its own length. -/
def gcmCtr (key nonce data : List Nat) : List Nat :=
  xorBytes data (gcmKeystream key nonce data.length)

theorem gcmCtr_length (key nonce data : List Nat) :
    (gcmCtr key nonce data).length = data.length := by
  simp [gcmCtr, xorBytes_length, gcmKeystream_length]

theorem gcmCtr_gcmCtr (key nonce data : List Nat) :
    gcmCtr key nonce (gcmCtr key nonce data) = data := by
  have h := gcmCtr_length key nonce data
  rw [show gcmCtr key nonce (gcmCtr key nonce data)
      = xorBytes (gcmCtr key nonce data)
          (gcmKeystream key nonce (gcmCtr key nonce data).length) from rfl, h]
  exact xorBytes_xorBytes_cancel data _ (by simp [gcmKeystream_length])

/-- The 16-byte GCM authentication tag over ciphertext `ct` (no associated
data, as in the source: `gcm.Seal(nil, nonce, plaintext, nil)`). -/
def gcmTag (key nonce ct : List Nat) : List Nat :=
  let h := bytesToNat128 (aesBlock key (List.replicate 16 0))
  let lenBlock := putU64BE 0 ++ putU64BE (ct.length * 8)
  let s := ghashBlocks h (toBlocks16 ct ++ [lenBlock])
  xorBytes (nat128ToBytes s) (aesBlock key (gcmJ0 nonce))

theorem gcmTag_length (key nonce ct : List Nat) : (gcmTag key nonce ct).length = 16 := by
  simp [gcmTag, xorBytes_length, aesBlock_length, nat128ToBytes]

/-- Modelled from the spec: Go's `gcm.Seal` (no associated data): ciphertext with the 16-byte tag appended. -/
def gcmSeal (key nonce pt : List Nat) : List Nat :=
  let ct := gcmCtr key nonce pt
  ct ++ gcmTag key nonce ct

theorem gcmSeal_length (key nonce pt : List Nat) :
    (gcmSeal key nonce pt).length = pt.length + 16 := by
  simp [gcmSeal, gcmCtr_length, gcmTag_length]

/-- Modelled from the spec: Go's `gcm.Open`: split off the tag, recompute it, and unmask on success. -/
def gcmOpen (key nonce ct : List Nat) : Option (List Nat) :=
  if ct.length < 16 then none
  else
    let body := ct.take (ct.length - 16)
    let tag := ct.drop (ct.length - 16)
    if gcmTag key nonce body = tag then some (gcmCtr key nonce body) else none

/-- GCM round trip: opening a sealed message with the same key and nonce
returns the plaintext. -/
theorem gcmOpen_gcmSeal (key nonce pt : List Nat) :
    gcmOpen key nonce (gcmSeal key nonce pt) = some pt := by
  have hlen := gcmSeal_length key nonce pt
  have hclen := gcmCtr_length key nonce pt
  have htlen := gcmTag_length key nonce (gcmCtr key nonce pt)
  simp only [gcmOpen, hlen]
  rw [if_neg (by omega)]
  have hsplit : pt.length + 16 - 16 = (gcmCtr key nonce pt).length := by omega
  have htake : (gcmSeal key nonce pt).take (pt.length + 16 - 16) = gcmCtr key nonce pt := by
    rw [hsplit]
    exact List.take_left _ _
  have hdrop : (gcmSeal key nonce pt).drop (pt.length + 16 - 16)
      = gcmTag key nonce (gcmCtr key nonce pt) := by
    rw [hsplit]
    exact List.drop_left _ _
  rw [htake, hdrop, if_pos rfl, gcmCtr_gcmCtr]

/-!
## `internal/crypto`: encryption.go and keyderivation.go
-/

/-- Errors of `crypto.Encrypt` (one per distinct error return in the source;
the cipher/GCM constructors cannot fail for a 32-byte key). -/
inductive EncryptErr where
  | invalidKeySize : Nat → EncryptErr
  deriving DecidableEq, Repr

/-- Errors of `crypto.Decrypt`. -/
inductive DecryptErr where
  | invalidKeySize : Nat → DecryptErr
  | invalidNonceSize : Nat → DecryptErr
  | authFailed : DecryptErr
  deriving DecidableEq, Repr

/-- Model of `crypto.Encrypt` (encryption.go): validate the key size, generate a
12-byte nonce from `crypto/rand` (modelled by the explicit `nonceRand`
argument, as `rand.Read` filling a fresh 12-byte buffer), AES-256-GCM-seal,
and return ciphertext (tag included) and nonce. -/
def Encrypt (plaintext key nonceRand : List Nat) :
    Except EncryptErr (List Nat × List Nat) :=
  if key.length ≠ 32 then .error (.invalidKeySize key.length)
  else
    let nonce := fit 12 nonceRand
    .ok (gcmSeal key nonce plaintext, nonce)

/-- Model of `crypto.Decrypt` (encryption.go): validate key and nonce sizes, then
AES-256-GCM-open, failing uniformly on any authentication failure. -/
def Decrypt (ciphertext key nonce : List Nat) : Except DecryptErr (List Nat) :=
  if key.length ≠ 32 then .error (.invalidKeySize key.length)
  else if nonce.length ≠ 12 then .error (.invalidNonceSize nonce.length)
  else
    match gcmOpen key nonce ciphertext with
    | none => .error .authFailed
    | some pt => .ok pt

/-- Error of `crypto.DeriveKey` (keyderivation.go): salt shorter than 16
bytes. -/
inductive DeriveKeyErr where
  | shortSalt : Nat → DeriveKeyErr
  deriving DecidableEq, Repr

/-- Modelled from the spec: `argon2.IDKey` from `golang.org/x/crypto/argon2`
(absent from the repository sources).  Per its contract it deterministically
returns `keyLen` bytes from the passphrase, salt, and cost parameters; the
memory-hard internals are replaced by a cheap executable mixing function of
exactly the same inputs, keeping the 32-byte output shape. -/
def argon2IDKey (passphrase salt : List Nat) (timeCost memory threads keyLen : Nat) :
    List Nat :=
  let seed := passphrase ++ [257] ++ salt ++ [timeCost, memory, threads, keyLen]
  (List.range keyLen).map fun i =>
    (seed.foldl (fun acc b => (acc * 16777619 + b + 1) % 4294967291) (i + 1)) % 256

theorem argon2IDKey_length (p s : List Nat) (t m th k : Nat) :
    (argon2IDKey p s t m th k).length = k := by
  simp [argon2IDKey]

/-- Model of `crypto.DeriveKey` (keyderivation.go): validate the salt length, then
derive a 32-byte key with Argon2id (time=4, memory=64*1024, threads=4). -/
def DeriveKey (passphrase salt : List Nat) : Except DeriveKeyErr (List Nat) :=
  if salt.length < 16 then .error (.shortSalt salt.length)
  else .ok (argon2IDKey passphrase salt 4 65536 4 32)

/-- Model of `crypto.GenerateSalt` (keyderivation.go): 16 random bytes, modelled by
fitting the explicit random stream to the 16-byte buffer `rand.Read` fills. -/
def GenerateSalt (rand : List Nat) : List Nat := fit 16 rand

theorem GenerateSalt_length (rand : List Nat) : (GenerateSalt rand).length = 16 :=
  fit_length 16 rand

theorem DeriveKey_ok_length (passphrase salt key : List Nat)
    (h : DeriveKey passphrase salt = .ok key) : key.length = 32 := by
  simp only [DeriveKey] at h
  split at h
  · exact absurd h (by simp)
  · cases h
    exact argon2IDKey_length _ _ _ _ _ _

/-!
## `internal/totp`: the time-based code generator

Modelled from the spec: the repository's `internal/totp` package (functions
`totp.GenerateCode` and `totp.ValidateSecret`, called from
`internal/tui/app.go` and `internal/storage/models.go`) is absent from the
sources.  The definitions below follow §4.3 of the spec word for word:
Base32-decode the secret (at least 10 decoded bytes), `T = floor(unix/30)`
as 8 big-endian bytes, HMAC-SHA-1, dynamic truncation, reduce modulo
1,000,000, zero-pad to 6 digits.  SHA-1 and HMAC are the standard
algorithms (validated against FIPS-180 / RFC 2202 vectors during
development).
-/

/-- Rotation of a 32-bit word left by `n` bits. -/
def rotl32 (x n : Nat) : Nat :=
  (((x % 4294967296) <<< n) ||| ((x % 4294967296) >>> (32 - n))) &&& 4294967295

/-- SHA-1 padding: append `0x80`, zeros to 56 mod 64, and the 64-bit
big-endian bit length. -/
def sha1Pad (msg : List Nat) : List Nat :=
  let l := msg.length
  let k := (120 - (l + 1) % 64) % 64
  msg ++ [128] ++ List.replicate k 0 ++ putU64BE (l * 8)

/-- Split a padded message into 64-byte blocks. -/
def toBlocks64 (bs : List Nat) : List (List Nat) :=
  (List.range (bs.length / 64)).map fun i => (bs.drop (64 * i)).take 64

/-- The 80-word SHA-1 message schedule of one block. -/
def sha1Schedule (block : List Nat) : List Nat :=
  let w16 := (List.range 16).map fun i =>
    wordOfBytes (block.getD (4 * i) 0) (block.getD (4 * i + 1) 0)
      (block.getD (4 * i + 2) 0) (block.getD (4 * i + 3) 0)
  (List.range 64).foldl
    (fun ws _ =>
      let t := ws.length
      ws ++ [rotl32 (Nat.xor (Nat.xor (ws.getD (t - 3) 0) (ws.getD (t - 8) 0))
        (Nat.xor (ws.getD (t - 14) 0) (ws.getD (t - 16) 0))) 1])
    w16

/-- One SHA-1 compression round. -/
def sha1Round (w : List Nat) (s : Nat × Nat × Nat × Nat × Nat) (t : Nat) :
    Nat × Nat × Nat × Nat × Nat :=
  let a := s.1
  let b := s.2.1
  let c := s.2.2.1
  let d := s.2.2.2.1
  let e := s.2.2.2.2
  let f :=
    if t < 20 then (b &&& c) ||| ((Nat.xor b 4294967295) &&& d)
    else if t < 40 then Nat.xor (Nat.xor b c) d
    else if t < 60 then (b &&& c) ||| (b &&& d) ||| (c &&& d)
    else Nat.xor (Nat.xor b c) d
  let temp := (rotl32 a 5 + f + e +
    (if t < 20 then 1518500249 else if t < 40 then 1859775393
     else if t < 60 then 2400959708 else 3395469782) + w.getD t 0) % 4294967296
  (temp, a, rotl32 b 30, c, d)

/-- SHA-1 compression of one 64-byte block into the 5-word state. -/
def sha1Compress (h : List Nat) (block : List Nat) : List Nat :=
  let w := sha1Schedule block
  let init := (h.getD 0 0, h.getD 1 0, h.getD 2 0, h.getD 3 0, h.getD 4 0)
  let s := (List.range 80).foldl (sha1Round w) init
  [(h.getD 0 0 + s.1) % 4294967296, (h.getD 1 0 + s.2.1) % 4294967296,
   (h.getD 2 0 + s.2.2.1) % 4294967296, (h.getD 3 0 + s.2.2.2.1) % 4294967296,
   (h.getD 4 0 + s.2.2.2.2) % 4294967296]

/-- SHA-1 of a byte list: 20 bytes. -/
def sha1 (msg : List Nat) : List Nat :=
  let final := (toBlocks64 (sha1Pad msg)).foldl sha1Compress
    [1732584193, 4023233417, 2562383102, 271733878, 3285377520]
  final.flatMap wordBytes

/-- HMAC-SHA-1 (RFC 2104). -/
def hmacSha1 (key msg : List Nat) : List Nat :=
  let key0 := if 64 < key.length then sha1 key else key
  let kpad := fit 64 key0
  let ipad := kpad.map fun b => Nat.xor (b % 256) 54
  let opad := kpad.map fun b => Nat.xor (b % 256) 92
  sha1 (opad ++ sha1 (ipad ++ msg))

/-- The value of one Base32 character (RFC 4648 standard alphabet
`A`–`Z`, `2`–`7`). -/
def base32CharVal (c : Nat) : Option Nat :=
  if 65 ≤ c ∧ c ≤ 90 then some (c - 65)
  else if 50 ≤ c ∧ c ≤ 55 then some (c - 50 + 26)
  else none

/-- The 5-bit values of a Base32 string, or `none` on any invalid
character. -/
def base32Vals : List Nat → Option (List Nat)
  | [] => some []
  | c :: rest =>
    match base32CharVal c with
    | none => none
    | some v => (base32Vals rest).map (v :: ·)

/-- Pack a list of 5-bit values into bytes, dropping the incomplete tail
byte. -/
def base32Pack (vs : List Nat) : List Nat :=
  let total := vs.foldl (fun acc v => acc * 32 + v % 32) 0
  let nbits := 5 * vs.length
  (List.range (nbits / 8)).map fun i => (total >>> (nbits - 8 * (i + 1))) &&& 255

/-- Base32 decoding: strip trailing `=` padding, then decode; fails on any
character outside the standard alphabet. -/
def base32Decode (s : List Nat) : Option (List Nat) :=
  let stripped := (s.reverse.dropWhile (fun c => c = 61)).reverse
  (base32Vals stripped).map base32Pack

/-- The TOTP error: a secret that is not valid Base32 or decodes to fewer
than 10 bytes. -/
inductive TotpErr where
  | invalidSecret : TotpErr
  deriving DecidableEq, Repr

/-- Modelled from the spec: the missing `totp.ValidateSecret`: the secret must be valid Base32 and decode to at
least 10 bytes. -/
def ValidateSecret (secret : List Nat) : Except TotpErr Unit :=
  match base32Decode secret with
  | none => .error .invalidSecret
  | some bytes => if bytes.length < 10 then .error .invalidSecret else .ok ()

/-- Dynamic truncation (RFC 4226 §5.3) of a 20-byte HMAC value. -/
def dynamicTruncate (h : List Nat) : Nat :=
  let off := (h.getD 19 0) &&& 15
  (((h.getD off 0) &&& 127) <<< 24) ||| ((h.getD (off + 1) 0 % 256) <<< 16) |||
    ((h.getD (off + 2) 0 % 256) <<< 8) ||| (h.getD (off + 3) 0 % 256)

/-- Modelled from the spec: `fmt.Sprintf` of `%06d` for `n < 10^6`: the 6 zero-padded decimal digit
characters. -/
def render6 (n : Nat) : List Nat :=
  [48 + n / 100000 % 10, 48 + n / 10000 % 10, 48 + n / 1000 % 10,
   48 + n / 100 % 10, 48 + n / 10 % 10, 48 + n % 10]

/-- The TOTP value before rendering: HMAC-SHA-1 of the 8-byte big-endian
30-second counter, dynamically truncated, reduced modulo 1,000,000. -/
def totpValue (key : List Nat) (unixTime : Nat) : Nat :=
  dynamicTruncate (hmacSha1 key (putU64BE (unixTime / 30))) % 1000000

/-- Modelled from the spec: the missing `totp.GenerateCode`: validate and decode the secret, then render the
6-digit code for the 30-second window containing `unixTime`. -/
def GenerateCode (secret : List Nat) (unixTime : Nat) : Except TotpErr (List Nat) :=
  match base32Decode secret with
  | none => .error .invalidSecret
  | some key =>
    if key.length < 10 then .error .invalidSecret
    else .ok (render6 (totpValue key unixTime))

/-!
## `internal/storage`: the vault record model (models.go, first file)

Go strings are modelled as lists of Unicode code points (runes), which is
what `for _, c := range s` iterates over; Go's `len` (a byte count) is
modelled by the UTF-8 byte length.  `time.Time` values are modelled as
naturals.
-/

/-- The UTF-8 byte length of one code point. -/
def utf8Len (c : Nat) : Nat :=
  if c < 128 then 1 else if c < 2048 then 2 else if c < 65536 then 3 else 4

/-- Go `len(s)` on a string: its UTF-8 byte length. -/
def byteLen (s : List Nat) : Nat := (s.map utf8Len).sum

/-- Modelled from the spec: Go's `unicode.IsSpace` (whitespace code points),
used by `strings.TrimSpace`. -/
def isSpaceRune (c : Nat) : Bool :=
  [9, 10, 11, 12, 13, 32, 133, 160, 5760, 8192, 8193, 8194, 8195, 8196, 8197,
    8198, 8199, 8200, 8201, 8202, 8232, 8233, 8239, 8287, 12288].contains c

/-- Modelled from the spec: `strings.TrimSpace`, removing leading and
trailing whitespace. -/
def trimSpace (s : List Nat) : List Nat :=
  ((s.dropWhile isSpaceRune).reverse.dropWhile isSpaceRune).reverse

/-- Modelled from the spec: Go's `strings.EqualFold` case folding, restricted
to the ASCII letters that the vault's service names use. -/
def foldRune (c : Nat) : Nat := if 65 ≤ c ∧ c ≤ 90 then c + 32 else c

/-- Modelled from the spec: `strings.EqualFold`, equality under simple case folding. -/
def equalFold (a b : List Nat) : Bool := a.map foldRune = b.map foldRune

/-- One TOTP service entry (`storage.Service`). -/
structure Service where
  Name : List Nat
  Identifier : List Nat
  Secret : List Nat
  CreatedAt : Nat
  LastUsed : Option Nat
  deriving DecidableEq, Repr

/-- The decrypted vault record (`storage.Storage`); `Salt` and `Nonce` are
tagged `json:"-"` in the source and are not part of the serialized form. -/
structure Storage where
  Version : Nat
  Services : List Service
  Salt : List Nat
  Nonce : List Nat
  deriving DecidableEq, Repr

/-- The four distinct error returns of `ValidateServiceName`. -/
inductive NameErr where
  | empty : NameErr
  | tooLong : Nat → NameErr
  | controlChar : NameErr
  | pathSeparator : NameErr
  deriving DecidableEq, Repr

/-- The per-character scan of `ValidateServiceName`: control characters
first, then path separators, in string order. -/
def scanNameRunes : List Nat → Except NameErr Unit
  | [] => .ok ()
  | c :: rest =>
    if c < 32 ∨ c = 127 then .error .controlChar
    else if c = 47 ∨ c = 92 then .error .pathSeparator
    else scanNameRunes rest

/-- Model of `storage.ValidateServiceName` (models.go): trim whitespace, reject empty,
reject a trimmed byte length over 50, reject control characters and path
separators. -/
def ValidateServiceName (name : List Nat) : Except NameErr Unit :=
  let trimmed := trimSpace name
  if trimmed = [] then .error .empty
  else if 50 < byteLen trimmed then .error (.tooLong (byteLen trimmed))
  else scanNameRunes trimmed

/-- Errors of `Service.Validate` / `Storage.AddService`. -/
inductive AddErr where
  | invalidName : NameErr → AddErr
  | invalidSecret : AddErr
  | duplicate : List Nat → AddErr
  deriving DecidableEq, Repr

/-- Model of `Service.Validate` (models.go): name then secret. -/
def ServiceValidate (s : Service) : Except AddErr Unit :=
  match ValidateServiceName s.Name with
  | .error e => .error (.invalidName e)
  | .ok () =>
    match ValidateSecret s.Secret with
    | .error _ => .error .invalidSecret
    | .ok () => .ok ()

/-- Model of `Storage.AddService` (models.go): validate, check for a case-insensitive
duplicate name, then append.  The receiver mutation is modelled by returning
the post-state next to the result; on every error path the post-state is the
unchanged receiver. -/
def AddService (s : Storage) (service : Service) : Except AddErr Unit × Storage :=
  match ServiceValidate service with
  | .error e => (.error e, s)
  | .ok () =>
    if s.Services.any (fun existing => equalFold existing.Name service.Name) then
      (.error (.duplicate service.Name), s)
    else (.ok (), { s with Services := s.Services ++ [service] })

/-- Model of `Storage.GetService` (models.go): first case-insensitive name match. -/
def GetService (s : Storage) (name : List Nat) : Except Unit Service :=
  match s.Services.find? (fun sv => equalFold sv.Name name) with
  | none => .error ()
  | some sv => .ok sv

/-!
## The serialized vault

Modelled from the spec: `encoding/json` marshalling of the `Storage` struct
(an external library).  Only its contract matters to the persistence engine —
marshalling is deterministic and unmarshalling inverts it; the JSON surface
syntax is replaced by an injective length-prefixed encoding of exactly the
serialized fields (`version` and `services`, with `salt`/`nonce` excluded as
`json:"-"` says).
-/

/-- Length-prefixed string encoding. -/
def encodeStr (s : List Nat) : List Nat := s.length :: s

/-- Encoding of an optional timestamp (`last_used`). -/
def encodeOptNat : Option Nat → List Nat
  | none => [0]
  | some t => [1, t]

/-- Encoding of one service entry with all five fields. -/
def encodeService (sv : Service) : List Nat :=
  encodeStr sv.Name ++ encodeStr sv.Identifier ++ encodeStr sv.Secret ++
    [sv.CreatedAt] ++ encodeOptNat sv.LastUsed

/-- Encoding of the entry list, in order. -/
def encodeServices : List Service → List Nat
  | [] => []
  | sv :: rest => encodeService sv ++ encodeServices rest

/-- Modelled from the spec: `json.Marshal` of `Storage`: version, entry count, entries. -/
def encodeVault (version : Nat) (services : List Service) : List Nat :=
  version :: services.length :: encodeServices services

/-- Decode a length-prefixed string, returning the rest. -/
def decodeStr (l : List Nat) : Option (List Nat × List Nat) :=
  match l with
  | [] => none
  | n :: rest => if n ≤ rest.length then some (rest.take n, rest.drop n) else none

/-- Decode one service entry, returning the rest. -/
def decodeService (l : List Nat) : Option (Service × List Nat) :=
  match decodeStr l with
  | none => none
  | some (name, r1) =>
    match decodeStr r1 with
    | none => none
    | some (ident, r2) =>
      match decodeStr r2 with
      | none => none
      | some (secret, r3) =>
        match r3 with
        | [] => none
        | created :: r4 =>
          match r4 with
          | 0 :: r5 => some (⟨name, ident, secret, created, none⟩, r5)
          | 1 :: t :: r5 => some (⟨name, ident, secret, created, some t⟩, r5)
          | _ => none

/-- Decode `n` service entries. -/
def decodeServices : Nat → List Nat → Option (List Service × List Nat)
  | 0, l => some ([], l)
  | n + 1, l =>
    match decodeService l with
    | none => none
    | some (sv, r) =>
      match decodeServices n r with
      | none => none
      | some (svs, r2) => some (sv :: svs, r2)

/-- Modelled from the spec: `json.Unmarshal` into `Storage`: the whole plaintext must be one
encoded vault. -/
def decodeVault (l : List Nat) : Option (Nat × List Service) :=
  match l with
  | version :: count :: rest =>
    match decodeServices count rest with
    | none => none
    | some (svs, r) => if r = [] then some (version, svs) else none
  | _ => none

theorem decodeStr_encodeStr (s r : List Nat) :
    decodeStr (encodeStr s ++ r) = some (s, r) := by
  simp only [encodeStr, List.cons_append, decodeStr]
  rw [if_pos (by simp)]
  simp

theorem decodeService_encodeService (sv : Service) (r : List Nat) :
    decodeService (encodeService sv ++ r) = some (sv, r) := by
  simp only [encodeService, decodeService, List.append_assoc, List.cons_append,
    decodeStr_encodeStr]
  cases h : sv.LastUsed <;>
    simp [encodeOptNat, h] <;>
    (cases sv; simp_all)

theorem decodeServices_encodeServices (svs : List Service) (r : List Nat) :
    decodeServices svs.length (encodeServices svs ++ r) = some (svs, r) := by
  induction svs generalizing r with
  | nil => simp [encodeServices, decodeServices]
  | cons sv rest ih =>
    simp [encodeServices, decodeServices, List.append_assoc,
      decodeService_encodeService, ih]

theorem decodeVault_encodeVault (version : Nat) (svs : List Service) :
    decodeVault (encodeVault version svs) = some (version, svs) := by
  have h := decodeServices_encodeServices svs []
  simp only [List.append_nil] at h
  simp [encodeVault, decodeVault, h]

/-!
## `internal/storage`: the persistence engine (models.go, second file)

File contents are explicit byte lists; the fallible file-system writes of
`Save` (temp-file write and rename) are driven by an explicit environment.
-/

/-- Model of `storage.Store`: a vault bound to a path and the passphrase unlocking
it. -/
structure Store where
  path : List Nat
  passphrase : List Nat
  storage : Storage
  deriving DecidableEq, Repr

/-- Model of `storage.Create` (models.go): fresh salt (from the explicit random
stream), empty vault at version 1, nothing written to disk yet.  The
`os.MkdirAll` step is outside the byte-level model. -/
def Create (path passphrase saltRand : List Nat) : Store :=
  { path := path, passphrase := passphrase,
    storage := { Version := 1, Services := [], Salt := GenerateSalt saltRand, Nonce := [] } }

/-- The distinct error returns of `storage.Load`, one per `fmt.Errorf` in the
source.  (`deriveKeyFailed` mirrors the `failed to derive key` return; it is
unreachable because the salt slice read from a long-enough file is always 16
bytes.) -/
inductive LoadErr where
  | tooShort : LoadErr
  | unsupportedVersion : Nat → LoadErr
  | deriveKeyFailed : LoadErr
  | decryptFailed : LoadErr
  | unmarshalFailed : LoadErr
  deriving DecidableEq, Repr

/-- Model of `storage.Load` (models.go) on the bytes of an existing storage file:
check the minimum length `4+16+12+16`, check `version == 1`, slice out salt
(bytes 4–20), nonce (20–32) and ciphertext (32–), derive the key, decrypt,
unmarshal, and overwrite the unmarshalled salt/nonce with the file's. -/
def LoadBytes (path data passphrase : List Nat) : Except LoadErr Store :=
  if data.length < 4 + 16 + 12 + 16 then .error .tooShort
  else
    let version := readU32LE data
    if version ≠ 1 then .error (.unsupportedVersion version)
    else
      let salt := (data.drop 4).take 16
      let nonce := (data.drop 20).take 12
      let ciphertext := data.drop 32
      match DeriveKey passphrase salt with
      | .error _ => .error .deriveKeyFailed
      | .ok key =>
        match Decrypt ciphertext key nonce with
        | .error _ => .error .decryptFailed
        | .ok plaintext =>
          match decodeVault plaintext with
          | none => .error .unmarshalFailed
          | some (version, services) =>
            .ok { path := path, passphrase := passphrase,
                  storage := { Version := version, Services := services,
                               Salt := salt, Nonce := nonce } }

/-- The distinct error returns of `Store.Save`. -/
inductive SaveErr where
  | deriveKeyFailed : SaveErr
  | marshalFailed : SaveErr
  | encryptFailed : SaveErr
  | writeFailed : SaveErr
  | renameFailed : SaveErr
  deriving DecidableEq, Repr

/-- Which file-system steps of `Save` succeed: the temp-file write and the
rename onto the target path. -/
structure SaveEnv where
  writeOk : Bool
  renameOk : Bool
  deriving DecidableEq, Repr

/-- Model of `Store.Save` (models.go): derive the key from the current passphrase and
salt, marshal the vault, encrypt with a fresh nonce, assemble
`[version][salt][nonce][ciphertext]`, write a temp file, rename it over the
target, and only then store the new nonce in memory.  Returns the written
file bytes next to the post-state of the in-memory store; every failure
leaves the store unchanged.  (`json.Marshal` of this struct cannot fail, so
the marshal step has no error branch.) -/
def Save (s : Store) (nonceRand : List Nat) (env : SaveEnv) :
    Except SaveErr (List Nat) × Store :=
  match DeriveKey s.passphrase s.storage.Salt with
  | .error _ => (.error .deriveKeyFailed, s)
  | .ok key =>
    let jsonData := encodeVault s.storage.Version s.storage.Services
    match Encrypt jsonData key nonceRand with
    | .error _ => (.error .encryptFailed, s)
    | .ok (ciphertext, nonce) =>
      let fileData := putU32LE (s.storage.Version % 4294967296) ++
        fit 16 s.storage.Salt ++ fit 12 nonce ++ ciphertext
      if env.writeOk = false then (.error .writeFailed, s)
      else if env.renameOk = false then (.error .renameFailed, s)
      else (.ok fileData, { s with storage := { s.storage with Nonce := nonce } })

/-- Model of `Store.ChangePassphrase` (models.go): generate a brand-new salt, swap the
in-memory passphrase and salt, then perform a full `Save`. -/
def ChangePassphrase (s : Store) (newPassphrase saltRand nonceRand : List Nat)
    (env : SaveEnv) : Except SaveErr (List Nat) × Store :=
  Save
    { s with
      passphrase := newPassphrase
      storage := { s.storage with Salt := GenerateSalt saltRand } }
    nonceRand env

/-!
## `internal/cli/root.go`: the authentication flow over an existing file
-/

/-- The constant `maxPassphraseAttempts` (root.go line 14). -/
def maxPassphraseAttempts : Nat := 3

/-- The hard failure after exhausting the attempts, wrapping the last load
error (`authentication failed: %w`). -/
inductive AuthErr where
  | authenticationFailed : Option LoadErr → AuthErr
  deriving DecidableEq, Repr

/-- The attempt loop of `App.loadExistingStorage`: `remaining` attempts left,
prompting `prompts attempt` each round.  Returns the result, the disk
contents after the loop (the loop only reads, so they are threaded through
unchanged), and the number of `Load` calls made. -/
def authLoop (path fs : List Nat) (prompts : Nat → List Nat) :
    Nat → Nat → Option LoadErr → Except AuthErr Store × List Nat × Nat
  | 0, _, last => (.error (.authenticationFailed last), fs, 0)
  | remaining + 1, attempt, _lastErr =>
    match LoadBytes path fs (prompts attempt) with
    | .ok store => (.ok store, fs, 1)
    | .error e =>
      let r := authLoop path fs prompts remaining (attempt + 1) (some e)
      (r.1, r.2.1, r.2.2 + 1)

/-- Model of `App.loadExistingStorage` (root.go): up to `maxPassphraseAttempts`
interactive attempts against the existing file. -/
def loadExistingStorage (path fs : List Nat) (prompts : Nat → List Nat) :
    Except AuthErr Store × List Nat × Nat :=
  authLoop path fs prompts maxPassphraseAttempts 1 none

/-!
## Helper lemmas about the on-disk layout
-/

theorem slice_salt (v : Nat) (salt rest : List Nat) (h : salt.length = 16) :
    ((putU32LE v ++ (salt ++ rest)).drop 4).take 16 = salt := by
  have hd : (putU32LE v ++ (salt ++ rest)).drop 4 = salt ++ rest :=
    List.drop_left' (putU32LE_length v)
  rw [hd, List.take_left' h]

theorem slice_nonce (v : Nat) (salt nonce rest : List Nat)
    (hsalt : salt.length = 16) (hnonce : nonce.length = 12) :
    ((putU32LE v ++ (salt ++ (nonce ++ rest))).drop 20).take 12 = nonce := by
  have h20 : (putU32LE v ++ salt).length = 20 := by
    simp [putU32LE_length, hsalt]
  have hd : ((putU32LE v ++ salt) ++ (nonce ++ rest)).drop 20 = nonce ++ rest :=
    List.drop_left' h20
  rw [show putU32LE v ++ (salt ++ (nonce ++ rest))
      = (putU32LE v ++ salt) ++ (nonce ++ rest) by simp, hd, List.take_left' hnonce]

theorem slice_ciphertext (v : Nat) (salt nonce ct : List Nat)
    (hsalt : salt.length = 16) (hnonce : nonce.length = 12) :
    (putU32LE v ++ (salt ++ (nonce ++ ct))).drop 32 = ct := by
  have h32 : ((putU32LE v ++ salt) ++ nonce).length = 32 := by
    simp [putU32LE_length, hsalt, hnonce]
  have hd : (((putU32LE v ++ salt) ++ nonce) ++ ct).drop 32 = ct :=
    List.drop_left' h32
  rw [show putU32LE v ++ (salt ++ (nonce ++ ct))
      = ((putU32LE v ++ salt) ++ nonce) ++ ct by simp, hd]

/-!
## Claims
-/

/-- Claim C2: For every plaintext `P` (including the empty one) and every
32-byte key `K`, decrypting the ciphertext returned by `Encrypt(P, K)` with
the same key and the nonce returned by that call yields exactly `P`. -/
theorem encrypt_decrypt_roundtrip (P K nonceRand ct n : List Nat)
    (hK : K.length = 32) (henc : Encrypt P K nonceRand = .ok (ct, n)) :
    Decrypt ct K n = .ok P := by
  simp only [Encrypt, hK, ne_eq, not_true_eq_false, if_false, reduceIte,
    Except.ok.injEq, Prod.mk.injEq] at henc
  obtain ⟨hct, hn⟩ := henc
  have hnlen : n.length = 12 := by rw [← hn]; exact fit_length 12 nonceRand
  simp only [Decrypt, hK, hnlen, ne_eq, not_true_eq_false, if_false, reduceIte]
  rw [← hct, ← hn, gcmOpen_gcmSeal]

/-- Witness for C2 at a concrete plaintext, key, and nonce stream. -/
theorem encrypt_decrypt_roundtrip_witness :
    Decrypt (gcmSeal (List.range 32) (fit 12 (List.range 12)) [1, 2, 3])
      (List.range 32) (fit 12 (List.range 12)) = .ok [1, 2, 3] :=
  encrypt_decrypt_roundtrip [1, 2, 3] (List.range 32) (List.range 12) _ _
    (by decide) rfl

/-- Claim C8: `DeriveKey` on a salt of at least 16 bytes returns a 32-byte key
(and, being a pure function of the passphrase and salt, is deterministic);
on a shorter salt it fails with the short-salt error and returns no key. -/
theorem deriveKey_contract (pass salt : List Nat) :
    (salt.length < 16 → DeriveKey pass salt = .error (.shortSalt salt.length)) ∧
    (16 ≤ salt.length → ∃ k, DeriveKey pass salt = .ok k ∧ k.length = 32) := by
  constructor
  · intro h
    simp [DeriveKey, h]
  · intro h
    exact ⟨argon2IDKey pass salt 4 65536 4 32,
      by simp [DeriveKey, Nat.not_lt.mpr h],
      argon2IDKey_length pass salt 4 65536 4 32⟩

/-- Witness for C8 at a 3-byte and a 16-byte salt. -/
theorem deriveKey_contract_witness :
    DeriveKey [97] [1, 2, 3] = .error (.shortSalt 3) ∧
    ∃ k, DeriveKey [97] (List.range 16) = .ok k ∧ k.length = 32 :=
  ⟨by simpa using (deriveKey_contract [97] [1, 2, 3]).1 (by decide),
   (deriveKey_contract [97] (List.range 16)).2 (by decide)⟩

/-- Claim C6: Adding an entry whose name case-insensitively equals an existing
entry's name fails, and the vault's entry list (indeed the whole record) is
exactly what it was before the call. -/
theorem addService_duplicate_rejected (s : Storage) (svc : Service)
    (h : ∃ ex ∈ s.Services, equalFold ex.Name svc.Name = true) :
    (AddService s svc).1.isOk = false ∧ (AddService s svc).2 = s := by
  unfold AddService
  cases hv : ServiceValidate svc with
  | error e => simp [Except.isOk, Except.toBool]
  | ok u =>
    cases u
    have hany : s.Services.any (fun ex => equalFold ex.Name svc.Name) = true := by
      rcases h with ⟨ex, hmem, hfold⟩
      exact List.any_eq_true.mpr ⟨ex, hmem, hfold⟩
    simp [hany, Except.isOk, Except.toBool]

/-- A valid sample secret (`"JBSWY3DPEHPK3PXP"` as code points). -/
def sampleSecret : List Nat :=
  [74, 66, 83, 87, 89, 51, 68, 80, 69, 72, 80, 75, 51, 80, 88, 80]

/-- A vault holding one service named `"GitHub"`. -/
def sampleStorage : Storage :=
  { Version := 1
    Services := [{ Name := [71, 105, 116, 72, 117, 98], Identifier := [],
                   Secret := sampleSecret, CreatedAt := 5, LastUsed := none }]
    Salt := List.range 16
    Nonce := [] }

/-- Witness for C6: adding `"github"` next to the existing `"GitHub"`. -/
theorem addService_duplicate_rejected_witness :
    (AddService sampleStorage
      { Name := [103, 105, 116, 104, 117, 98], Identifier := [],
        Secret := sampleSecret, CreatedAt := 9, LastUsed := none }).1.isOk = false ∧
    (AddService sampleStorage
      { Name := [103, 105, 116, 104, 117, 98], Identifier := [],
        Secret := sampleSecret, CreatedAt := 9, LastUsed := none }).2 = sampleStorage :=
  addService_duplicate_rejected sampleStorage _ (by decide)

/-- The name condition that `ValidateServiceName` actually enforces, on the
whitespace-trimmed name: nonempty, at most 50 UTF-8 bytes, and free of
control characters and path separators. -/
def validTrimmedName (name : List Nat) : Prop :=
  trimSpace name ≠ [] ∧ byteLen (trimSpace name) ≤ 50 ∧
    ∀ c ∈ trimSpace name, ¬(c < 32 ∨ c = 127) ∧ ¬(c = 47 ∨ c = 92)

instance (name : List Nat) : Decidable (validTrimmedName name) := by
  unfold validTrimmedName
  infer_instance

theorem scanNameRunes_ok_iff (l : List Nat) :
    scanNameRunes l = .ok () ↔ ∀ c ∈ l, ¬(c < 32 ∨ c = 127) ∧ ¬(c = 47 ∨ c = 92) := by
  induction l with
  | nil => simp [scanNameRunes]
  | cons c rest ih =>
    constructor
    · intro h
      unfold scanNameRunes at h
      by_cases h1 : c < 32 ∨ c = 127
      · rw [if_pos h1] at h; cases h
      · rw [if_neg h1] at h
        by_cases h2 : c = 47 ∨ c = 92
        · rw [if_pos h2] at h; cases h
        · rw [if_neg h2] at h
          intro d hd
          rcases List.mem_cons.mp hd with rfl | hd'
          · exact ⟨h1, h2⟩
          · exact (ih.mp h) d hd'
    · intro h
      have hc := h c (List.mem_cons_self c rest)
      unfold scanNameRunes
      rw [if_neg hc.1, if_neg hc.2]
      exact ih.mpr fun d hd => h d (List.mem_cons_of_mem c hd)

theorem validateServiceName_ok_iff (name : List Nat) :
    ValidateServiceName name = .ok () ↔ validTrimmedName name := by
  unfold ValidateServiceName validTrimmedName
  by_cases h1 : trimSpace name = []
  · simp [h1]
  · by_cases h2 : 50 < byteLen (trimSpace name)
    · simp [h1, h2, Nat.not_le.mpr h2]
    · simp [h1, h2, Nat.not_lt.mp h2, scanNameRunes_ok_iff]

/-- Claim C5, amended: `AddService` accepts an entry only if the
whitespace-trimmed name is nonempty, at most 50 bytes, and has no control
characters or path separators; and every entry whose trimmed name violates
that condition is rejected.  (The untrimmed name the entry keeps may differ:
surrounding whitespace is ignored by validation, which is what refutes the
original claim.) -/
theorem addService_name_validation (s : Storage) (svc : Service) :
    ((AddService s svc).1 = .ok () → validTrimmedName svc.Name) ∧
    (¬ validTrimmedName svc.Name → (AddService s svc).1.isOk = false) := by
  constructor
  · intro h
    unfold AddService at h
    cases hv : ServiceValidate svc with
    | error e => rw [hv] at h; simp at h
    | ok u =>
      cases u
      unfold ServiceValidate at hv
      cases hn : ValidateServiceName svc.Name with
      | error e => rw [hn] at hv; simp at hv
      | ok u2 => cases u2; exact (validateServiceName_ok_iff svc.Name).mp hn
  · intro h
    have hn : ValidateServiceName svc.Name ≠ .ok () := fun hc =>
      h ((validateServiceName_ok_iff svc.Name).mp hc)
    unfold AddService ServiceValidate
    cases hv : ValidateServiceName svc.Name with
    | error e => simp [Except.isOk, Except.toBool]
    | ok u2 => cases u2; exact absurd hv hn

/-- Witness for C5 (amended): a plainly valid add is accepted and therefore
satisfies the trimmed-name condition; an all-whitespace name is rejected. -/
theorem addService_name_validation_witness :
    validTrimmedName [71, 105, 116, 72, 117, 98] ∧
    (AddService sampleStorage
      { Name := [32, 9], Identifier := [], Secret := sampleSecret,
        CreatedAt := 0, LastUsed := none }).1.isOk = false :=
  ⟨(addService_name_validation
      { Version := 1, Services := [], Salt := [], Nonce := [] }
      { Name := [71, 105, 116, 72, 117, 98], Identifier := [],
        Secret := sampleSecret, CreatedAt := 5, LastUsed := none }).1 rfl,
   (addService_name_validation sampleStorage
      { Name := [32, 9], Identifier := [], Secret := sampleSecret,
        CreatedAt := 0, LastUsed := none }).2 (by decide)⟩

/-- A 51-character name: 50 `a`s followed by a space. -/
def nameEx51 : List Nat := List.replicate 50 97 ++ [32]

/-- Claim C5 counterexample: The 51-character name of 50 letters and a trailing space is
accepted by `AddService` (validation trims the trailing space first), even
though the original claim says any name longer than 50 characters is
rejected. -/
theorem addService_accepts_51_char_name :
    nameEx51.length = 51 ∧
    (AddService { Version := 1, Services := [], Salt := [], Nonce := [] }
      { Name := nameEx51, Identifier := [], Secret := sampleSecret,
        CreatedAt := 0, LastUsed := none }).1 = .ok () := by
  exact ⟨by decide, rfl⟩

/-- Claim C1 counterexample: Two failing loads surface two *different* errors
(a too-short file vs. an unsupported version), so `Load` does not return one
single opaque error hiding which step failed. -/
theorem load_errors_distinguish_steps :
    LoadBytes [] (List.replicate 10 0) [] = .error .tooShort ∧
    LoadBytes [] (putU32LE 2 ++ List.replicate 44 0) [] =
      .error (.unsupportedVersion 2) ∧
    LoadErr.tooShort ≠ LoadErr.unsupportedVersion 2 :=
  ⟨rfl, rfl, fun h => LoadErr.noConfusion h⟩

/-- Claim C1, amended: Whenever `Load` fails it surfaces one of five
step-identifying errors — too-short file, unsupported version (carrying the
version it read), key-derivation failure, decryption failure, or
deserialization failure — rather than a single opaque error: the too-short
error occurs exactly on files under 48 bytes, and the unsupported-version
error exactly on long-enough files whose version field is not 1. -/
theorem load_error_identifies_step (path data pass : List Nat) :
    (data.length < 48 → LoadBytes path data pass = .error .tooShort) ∧
    (48 ≤ data.length → readU32LE data ≠ 1 →
      LoadBytes path data pass = .error (.unsupportedVersion (readU32LE data))) ∧
    (∀ e, LoadBytes path data pass = .error e →
      (e = .tooShort ∨ (∃ v, e = .unsupportedVersion v ∧ v ≠ 1) ∨
        e = .deriveKeyFailed ∨ e = .decryptFailed ∨ e = .unmarshalFailed) ∧
      (e = .tooShort ↔ data.length < 48) ∧
      (∀ v, e = .unsupportedVersion v →
        48 ≤ data.length ∧ readU32LE data = v ∧ v ≠ 1)) := by
  refine ⟨?_, ?_, ?_⟩
  · intro h48
    unfold LoadBytes
    rw [if_pos (by omega)]
  · intro h48 hver
    unfold LoadBytes
    rw [if_neg (by omega)]
    dsimp only
    rw [if_pos hver]
  · intro e h
    unfold LoadBytes at h
    by_cases hlen : data.length < 4 + 16 + 12 + 16
    · rw [if_pos hlen] at h
      cases h
      refine ⟨Or.inl rfl, by simp; omega, ?_⟩
      intro v hv
      exact absurd hv (by simp)
    · rw [if_neg hlen] at h
      by_cases hver : readU32LE data ≠ 1
      · rw [if_pos hver] at h
        cases h
        refine ⟨Or.inr (Or.inl ⟨readU32LE data, rfl, hver⟩), by simp; omega, ?_⟩
        intro v hv
        have hveq : readU32LE data = v := by
          injection hv
        exact ⟨by omega, hveq, hveq ▸ hver⟩
      · rw [if_neg hver] at h
        dsimp only at h
        cases hdk : DeriveKey pass ((data.drop 4).take 16) with
        | error e2 =>
          simp only [hdk] at h
          cases h
          exact ⟨Or.inr (Or.inr (Or.inl rfl)), by simp; omega,
            fun v hv => absurd hv (by simp)⟩
        | ok key =>
          simp only [hdk] at h
          cases hdec : Decrypt (data.drop 32) key ((data.drop 20).take 12) with
          | error e3 =>
            simp only [hdec] at h
            cases h
            exact ⟨Or.inr (Or.inr (Or.inr (Or.inl rfl))), by simp; omega,
              fun v hv => absurd hv (by simp)⟩
          | ok pt =>
            simp only [hdec] at h
            cases hdv : decodeVault pt with
            | none =>
              simp only [hdv] at h
              cases h
              exact ⟨Or.inr (Or.inr (Or.inr (Or.inr rfl))), by simp; omega,
                fun v hv => absurd hv (by simp)⟩
            | some p =>
              simp only [hdv] at h
              exact absurd h (by simp)

/-- Witness for C1 (amended): a concrete 10-byte file fails with exactly the
too-short error, and a concrete 48-byte file carrying version 2 fails with
exactly the unsupported-version error. -/
theorem load_error_identifies_step_witness :
    LoadBytes [] (List.replicate 10 0) [] = .error .tooShort ∧
    LoadBytes [] (putU32LE 2 ++ List.replicate 44 0) [] =
      .error (.unsupportedVersion (readU32LE (putU32LE 2 ++ List.replicate 44 0))) ∧
    (LoadErr.tooShort = .tooShort ↔ (List.replicate 10 0 : List Nat).length < 48) :=
  ⟨(load_error_identifies_step [] (List.replicate 10 0) []).1 (by decide),
   (load_error_identifies_step [] (putU32LE 2 ++ List.replicate 44 0) []).2.1
     (by decide) (by decide),
   ((load_error_identifies_step [] (List.replicate 10 0) []).2.2 .tooShort rfl).2.1⟩

/-- Claim C4: For a secret that is valid Base32 and decodes to at least 10
bytes, `GenerateCode` returns exactly the 6-digit zero-padded decimal string
of `dynamic-truncate(HMAC-SHA-1(decoded secret, 8-byte big-endian
`floor(unix/30)`)) mod 10^6` (always 6 ASCII digits); for a secret that is
not valid Base32 or decodes to fewer than 10 bytes it fails with the
invalid-secret error instead. -/
theorem generateCode_contract (secret : List Nat) (t : Nat) :
    (∀ key, base32Decode secret = some key → 10 ≤ key.length →
      GenerateCode secret t =
        .ok (render6 (dynamicTruncate (hmacSha1 key (putU64BE (t / 30))) % 1000000)) ∧
      ∀ code, GenerateCode secret t = .ok code →
        code.length = 6 ∧ ∀ c ∈ code, 48 ≤ c ∧ c ≤ 57) ∧
    (base32Decode secret = none → GenerateCode secret t = .error .invalidSecret) ∧
    (∀ key, base32Decode secret = some key → key.length < 10 →
      GenerateCode secret t = .error .invalidSecret) := by
  refine ⟨?_, ?_, ?_⟩
  · intro key hdec hlen
    have hok : GenerateCode secret t =
        .ok (render6 (dynamicTruncate (hmacSha1 key (putU64BE (t / 30))) % 1000000)) := by
      simp [GenerateCode, hdec, Nat.not_lt.mpr hlen, totpValue]
    refine ⟨hok, ?_⟩
    intro code hcode
    rw [hok] at hcode
    have hc : code = render6 (dynamicTruncate (hmacSha1 key (putU64BE (t / 30))) % 1000000) := by
      cases hcode
      rfl
    subst hc
    refine ⟨rfl, ?_⟩
    intro c hc
    simp only [render6, List.mem_cons, List.not_mem_nil, or_false] at hc
    rcases hc with rfl | rfl | rfl | rfl | rfl | rfl <;> constructor <;> omega
  · intro hdec
    simp [GenerateCode, hdec]
  · intro key hdec hlen
    simp [GenerateCode, hdec, hlen]

/-- Witness for C4: the sample secret decodes to 10 bytes and produces a
6-digit code; the 1-character secret `"!"` is invalid Base32 and the secret
`"GE"` decodes to a single byte — both rejected. -/
theorem generateCode_contract_witness :
    (GenerateCode sampleSecret 1234567890 =
      .ok (render6 (dynamicTruncate (hmacSha1
        [72, 101, 108, 108, 111, 33, 222, 173, 190, 239]
        (putU64BE (1234567890 / 30))) % 1000000))) ∧
    GenerateCode [33] 1234567890 = .error .invalidSecret ∧
    GenerateCode [71, 69] 1234567890 = .error .invalidSecret :=
  ⟨((generateCode_contract sampleSecret 1234567890).1
      [72, 101, 108, 108, 111, 33, 222, 173, 190, 239] (by decide) (by decide)).1,
   (generateCode_contract [33] 1234567890).2.1 (by decide),
   (generateCode_contract [71, 69] 1234567890).2.2 [49] (by decide) (by decide)⟩

theorem save_post_state (s : Store) (nonceRand : List Nat) (env : SaveEnv) :
    (Save s nonceRand env).2 =
      if (Save s nonceRand env).1.isOk
      then { s with storage := { s.storage with Nonce := fit 12 nonceRand } }
      else s := by
  unfold Save
  cases hdk : DeriveKey s.passphrase s.storage.Salt with
  | error e => simp [Except.isOk, Except.toBool]
  | ok key =>
    have hk : key.length = 32 := DeriveKey_ok_length _ _ _ hdk
    have henc : Encrypt (encodeVault s.storage.Version s.storage.Services) key nonceRand
        = .ok (gcmSeal key (fit 12 nonceRand)
            (encodeVault s.storage.Version s.storage.Services), fit 12 nonceRand) := by
      simp [Encrypt, hk]
    simp only [henc]
    rcases env with ⟨w, r⟩
    cases w <;> cases r <;> simp [Except.isOk, Except.toBool]

theorem save_ok_env (s : Store) (nonceRand : List Nat) (env : SaveEnv)
    (h : (Save s nonceRand env).1.isOk = true) :
    env.writeOk = true ∧ env.renameOk = true := by
  unfold Save at h
  cases hdk : DeriveKey s.passphrase s.storage.Salt with
  | error e => rw [hdk] at h; simp [Except.isOk, Except.toBool] at h
  | ok key =>
    have hk : key.length = 32 := DeriveKey_ok_length _ _ _ hdk
    have henc : Encrypt (encodeVault s.storage.Version s.storage.Services) key nonceRand
        = .ok (gcmSeal key (fit 12 nonceRand)
            (encodeVault s.storage.Version s.storage.Services), fit 12 nonceRand) := by
      simp [Encrypt, hk]
    rw [hdk] at h
    simp only [henc] at h
    rcases env with ⟨w, r⟩
    cases w <;> cases r <;> simp_all [Except.isOk, Except.toBool]

/-- Claim C7: A successful `Save` changes nothing in memory except the nonce
(salt, version, entry list, passphrase, and path are untouched, and a failed
save changes nothing at all); `ChangePassphrase` is the only operation that
replaces the salt: it installs a brand-new salt (and the new passphrase)
before performing a full `Save`, and the salt embedded at bytes 4–20 of any
file it writes is that new salt. -/
theorem save_frame_and_change_passphrase (s : Store)
    (newPass saltRand nonceRand : List Nat) (env : SaveEnv) :
    ((Save s nonceRand env).2 =
      if (Save s nonceRand env).1.isOk
      then { s with storage := { s.storage with Nonce := fit 12 nonceRand } }
      else s) ∧
    ((ChangePassphrase s newPass saltRand nonceRand env).2 =
      if (ChangePassphrase s newPass saltRand nonceRand env).1.isOk
      then { s with
             passphrase := newPass
             storage := { s.storage with
                          Salt := GenerateSalt saltRand
                          Nonce := fit 12 nonceRand } }
      else { s with
             passphrase := newPass
             storage := { s.storage with Salt := GenerateSalt saltRand } }) ∧
    ((ChangePassphrase s newPass saltRand nonceRand env).1.map
        (fun d => (d.drop 4).take 16) =
      (ChangePassphrase s newPass saltRand nonceRand env).1.map
        (fun _ => GenerateSalt saltRand)) := by
  refine ⟨save_post_state s nonceRand env, ?_, ?_⟩
  · exact save_post_state
      { s with
        passphrase := newPass
        storage := { s.storage with Salt := GenerateSalt saltRand } } nonceRand env
  · unfold ChangePassphrase Save
    cases hdk : DeriveKey newPass (GenerateSalt saltRand) with
    | error e => rfl
    | ok key =>
      have hk : key.length = 32 := DeriveKey_ok_length _ _ _ hdk
      have henc : ∀ pt : List Nat, Encrypt pt key nonceRand
          = .ok (gcmSeal key (fit 12 nonceRand) pt, fit 12 nonceRand) := by
        intro pt
        simp [Encrypt, hk]
      simp only [henc]
      rcases env with ⟨w, r⟩
      have hsalt : fit 16 (GenerateSalt saltRand) = GenerateSalt saltRand :=
        fit_eq_self 16 _ (GenerateSalt_length saltRand)
      cases w <;> cases r <;>
        simp [Except.map, List.append_assoc, hsalt, slice_salt, GenerateSalt_length]

/-- Claim C10: Whenever `Save` fails at any step, the in-memory store is left
completely unchanged; and the store changes (its nonce is replaced) only
when the temp-file write and the rename both succeeded and the save
returned success. -/
theorem save_failure_frame (s : Store) (nonceRand : List Nat) (env : SaveEnv) :
    ((Save s nonceRand env).1.isOk = false → (Save s nonceRand env).2 = s) ∧
    ((Save s nonceRand env).2 = s ∨
      (env.writeOk = true ∧ env.renameOk = true ∧
        (Save s nonceRand env).1.isOk = true)) := by
  constructor
  · intro h
    rw [save_post_state, h]
    simp
  · cases hok : (Save s nonceRand env).1.isOk with
    | false =>
      left
      rw [save_post_state, hok]
      simp
    | true =>
      right
      rcases save_ok_env s nonceRand env hok with ⟨hw, hr⟩
      exact ⟨hw, hr, rfl⟩

/-- A concrete store (fresh vault at a fixed path). -/
def sampleStore : Store := Create [116] [112, 97, 115, 115] (List.range 16)

/-- Witness for C10: with the temp-file write failing, `Save` errors and the
store is unchanged. -/
theorem save_failure_frame_witness :
    (Save sampleStore [7] { writeOk := false, renameOk := true }).2 = sampleStore :=
  (save_failure_frame sampleStore [7] { writeOk := false, renameOk := true }).1 rfl

/-- Claim C9: Against an existing file, the authentication flow makes at most
3 `Load` attempts and never writes to the file (the disk contents it
returns are the ones it was given, so the file still opens with the correct
passphrase afterwards); if some attempt succeeds, it binds the store loaded
by the first successful attempt and stops immediately at that attempt; if
all 3 attempts fail, it returns the hard authentication failure wrapping
the third error, after exactly 3 attempts. -/
theorem load_existing_storage_attempts (path fs : List Nat) (prompts : Nat → List Nat) :
    (loadExistingStorage path fs prompts).2.1 = fs ∧
    (loadExistingStorage path fs prompts).2.2 ≤ 3 ∧
    (∀ st, (loadExistingStorage path fs prompts).1 = .ok st →
      ∃ i, 1 ≤ i ∧ i ≤ 3 ∧ LoadBytes path fs (prompts i) = .ok st ∧
        (∀ j, 1 ≤ j → j < i → ∃ e, LoadBytes path fs (prompts j) = .error e) ∧
        (loadExistingStorage path fs prompts).2.2 = i) ∧
    ((∀ i, 1 ≤ i → i ≤ 3 → ∃ e, LoadBytes path fs (prompts i) = .error e) →
      ∃ e3, LoadBytes path fs (prompts 3) = .error e3 ∧
        (loadExistingStorage path fs prompts).1 =
          .error (.authenticationFailed (some e3)) ∧
        (loadExistingStorage path fs prompts).2.2 = 3) := by
  unfold loadExistingStorage maxPassphraseAttempts
  cases h1 : LoadBytes path fs (prompts 1) with
  | ok st1 =>
    have hval : authLoop path fs prompts 3 1 none = (.ok st1, fs, 1) := by
      simp [authLoop, h1]
    rw [hval]
    refine ⟨rfl, show (1:Nat) ≤ 3 by omega, ?_, ?_⟩
    · intro st hst
      cases hst
      exact ⟨1, le_refl 1, by omega, h1, fun j hj1 hj2 => absurd hj1 (by omega), rfl⟩
    · intro hall
      rcases hall 1 (le_refl 1) (by omega) with ⟨e, he⟩
      rw [h1] at he
      cases he
  | error e1 =>
    cases h2 : LoadBytes path fs (prompts 2) with
    | ok st2 =>
      have hval : authLoop path fs prompts 3 1 none = (.ok st2, fs, 2) := by
        simp [authLoop, h1, h2]
      rw [hval]
      refine ⟨rfl, show (2:Nat) ≤ 3 by omega, ?_, ?_⟩
      · intro st hst
        cases hst
        refine ⟨2, by omega, by omega, h2, ?_, rfl⟩
        intro j hj1 hj2
        have hj : j = 1 := by omega
        subst hj
        exact ⟨e1, h1⟩
      · intro hall
        rcases hall 2 (by omega) (by omega) with ⟨e, he⟩
        rw [h2] at he
        cases he
    | error e2 =>
      cases h3 : LoadBytes path fs (prompts 3) with
      | ok st3 =>
        have hval : authLoop path fs prompts 3 1 none = (.ok st3, fs, 3) := by
          simp [authLoop, h1, h2, h3]
        rw [hval]
        refine ⟨rfl, show (3:Nat) ≤ 3 by omega, ?_, ?_⟩
        · intro st hst
          cases hst
          refine ⟨3, by omega, le_refl 3, h3, ?_, rfl⟩
          intro j hj1 hj2
          have hj : j = 1 ∨ j = 2 := by omega
          rcases hj with rfl | rfl
          · exact ⟨e1, h1⟩
          · exact ⟨e2, h2⟩
        · intro hall
          rcases hall 3 (by omega) (le_refl 3) with ⟨e, he⟩
          rw [h3] at he
          cases he
      | error e3 =>
        have hval : authLoop path fs prompts 3 1 none =
            (.error (.authenticationFailed (some e3)), fs, 3) := by
          simp [authLoop, h1, h2, h3]
        rw [hval]
        refine ⟨rfl, show (3:Nat) ≤ 3 by omega, ?_, ?_⟩
        · intro st hst
          cases hst
        · intro _
          exact ⟨e3, rfl, rfl, rfl⟩

/-- Witness for C9 at a concrete junk file on which every attempt fails. -/
theorem load_existing_storage_attempts_witness :
    ∃ e3, LoadBytes [5] [0] [] = .error e3 ∧
      (loadExistingStorage [5] [0] (fun _ => [])).1 =
        .error (.authenticationFailed (some e3)) ∧
      (loadExistingStorage [5] [0] (fun _ => [])).2.2 = 3 :=
  (load_existing_storage_attempts [5] [0] (fun _ => [])).2.2.2
    (fun _ _ _ => ⟨.tooShort, rfl⟩)

theorem loadBytes_of_layout (path pass salt nonce ct : List Nat)
    (hsalt : salt.length = 16) (hnonce : nonce.length = 12) (hct : 16 ≤ ct.length)
    (key pt : List Nat) (hdk : DeriveKey pass salt = .ok key)
    (hdec : Decrypt ct key nonce = .ok pt)
    (v : Nat) (svcs : List Service) (hdv : decodeVault pt = some (v, svcs)) :
    LoadBytes path (putU32LE 1 ++ (salt ++ (nonce ++ ct))) pass =
      .ok { path := path, passphrase := pass,
            storage := { Version := v, Services := svcs, Salt := salt, Nonce := nonce } } := by
  have hlen : (putU32LE 1 ++ (salt ++ (nonce ++ ct))).length = 32 + ct.length := by
    simp [putU32LE_length, hsalt, hnonce]
    omega
  unfold LoadBytes
  rw [if_neg (by omega)]
  rw [readU32LE_putU32LE 1 _ (by omega)]
  rw [if_neg (by omega)]
  dsimp only
  rw [slice_salt 1 salt (nonce ++ ct) hsalt]
  rw [slice_nonce 1 salt nonce ct hsalt hnonce]
  rw [slice_ciphertext 1 salt nonce ct hsalt hnonce]
  simp only [hdk, hdec, hdv]

/-- Add a list of entries in order, stopping at the first rejection. -/
def addAll (s : Storage) : List Service → Except AddErr Storage
  | [] => .ok s
  | svc :: rest =>
    match AddService s svc with
    | (.ok _, s2) => addAll s2 rest
    | (.error e, _) => .error e

theorem addService_preserves_meta (s : Storage) (svc : Service) :
    ((AddService s svc).2).Version = s.Version ∧ ((AddService s svc).2).Salt = s.Salt := by
  unfold AddService
  cases hv : ServiceValidate svc with
  | error e => exact ⟨rfl, rfl⟩
  | ok u =>
    cases u
    by_cases hdup : s.Services.any (fun existing => equalFold existing.Name svc.Name)
    · simp [hdup]
    · simp [hdup]

theorem addAll_preserves_meta (l : List Service) (s st : Storage)
    (h : addAll s l = .ok st) : st.Version = s.Version ∧ st.Salt = s.Salt := by
  induction l generalizing s with
  | nil =>
    unfold addAll at h
    cases h
    exact ⟨rfl, rfl⟩
  | cons svc rest ih =>
    unfold addAll at h
    rcases h2 : AddService s svc with ⟨res, s2⟩
    rw [h2] at h
    cases res with
    | error e => cases h
    | ok u =>
      cases u
      have hmeta := addService_preserves_meta s svc
      rw [h2] at hmeta
      rcases ih s2 h with ⟨hv, hs⟩
      exact ⟨hv.trans hmeta.1, hs.trans hmeta.2⟩

/-- Claim C3: Creating a store, adding any sequence of entries that are all
accepted, saving, and loading the written file with the same passphrase
yields a vault whose entry list is identical, entry for entry and in order,
to the saved one. -/
theorem vault_roundtrip (path pass saltRand nonceRand : List Nat)
    (svcs : List Service) (st : Storage)
    (h : addAll (Create path pass saltRand).storage svcs = .ok st) :
    ∃ data s2 loaded,
      Save { path := path, passphrase := pass, storage := st } nonceRand
        { writeOk := true, renameOk := true } = (.ok data, s2) ∧
      LoadBytes path data pass = .ok loaded ∧
      loaded.storage.Services = st.Services := by
  rcases addAll_preserves_meta svcs _ st h with ⟨hver, hsalt⟩
  have hver1 : st.Version = 1 := hver
  have hsalt16 : st.Salt.length = 16 := by
    rw [hsalt]
    exact GenerateSalt_length saltRand
  set key := argon2IDKey pass st.Salt 4 65536 4 32 with hkey
  have hdk : DeriveKey pass st.Salt = .ok key := by
    simp [DeriveKey, Nat.not_lt.mpr (le_of_eq hsalt16.symm)]
  have hklen : key.length = 32 := argon2IDKey_length pass st.Salt 4 65536 4 32
  set n12 := fit 12 nonceRand with hn12
  set jsonData := encodeVault st.Version st.Services with hjson
  set ct := gcmSeal key n12 jsonData with hct
  have hctlen : ct.length = jsonData.length + 16 := gcmSeal_length key n12 jsonData
  have hsave : Save { path := path, passphrase := pass, storage := st } nonceRand
      { writeOk := true, renameOk := true } =
      (.ok (putU32LE (st.Version % 4294967296) ++ fit 16 st.Salt ++ fit 12 n12 ++ ct),
       { path := path, passphrase := pass,
         storage := { st with Nonce := n12 } }) := by
    unfold Save
    rw [show ({ path := path, passphrase := pass, storage := st } : Store).passphrase
        = pass from rfl]
    rw [show ({ path := path, passphrase := pass, storage := st } : Store).storage
        = st from rfl]
    have henc : Encrypt jsonData key nonceRand = .ok (ct, n12) := by
      simp [Encrypt, hklen, hct, hn12]
    simp only [hdk, henc]
    rfl
  have hfile : putU32LE (st.Version % 4294967296) ++ fit 16 st.Salt ++ fit 12 n12 ++ ct
      = putU32LE 1 ++ (st.Salt ++ (n12 ++ ct)) := by
    rw [hver1]
    rw [fit_eq_self 16 st.Salt hsalt16]
    rw [show fit 12 n12 = n12 from fit_fit 12 nonceRand]
    simp [List.append_assoc]
  have hdec : Decrypt ct key n12 = .ok jsonData := by
    unfold Decrypt
    rw [if_neg (by omega)]
    rw [if_neg (by rw [fit_length]; omega)]
    rw [hct, gcmOpen_gcmSeal]
  have hdv : decodeVault jsonData = some (st.Version, st.Services) :=
    decodeVault_encodeVault st.Version st.Services
  rw [hver1] at hdv
  have hload := loadBytes_of_layout path pass st.Salt n12 ct hsalt16 (fit_length 12 nonceRand)
    (by omega) key jsonData hdk hdec 1 st.Services hdv
  refine ⟨_, _,
    { path := path, passphrase := pass,
      storage := { Version := 1, Services := st.Services, Salt := st.Salt, Nonce := n12 } },
    hsave, ?_, rfl⟩
  rw [hfile]
  exact hload

/-- A sample entry accepted into a fresh vault. -/
def sampleService : Service :=
  { Name := [71, 105, 116, 72, 117, 98], Identifier := [103, 104],
    Secret := sampleSecret, CreatedAt := 7, LastUsed := some 9 }

/-- Witness for C3: one concrete accepted entry round-trips. -/
theorem vault_roundtrip_witness :
    ∃ data s2 loaded,
      Save { path := [116], passphrase := [112, 119], storage :=
             { Version := 1, Services := [sampleService],
               Salt := GenerateSalt [3], Nonce := [] } } [8]
        { writeOk := true, renameOk := true } = (.ok data, s2) ∧
      LoadBytes [116] data [112, 119] = .ok loaded ∧
      loaded.storage.Services = [sampleService] :=
  vault_roundtrip [116] [112, 119] [3] [8] [sampleService]
    { Version := 1, Services := [sampleService], Salt := GenerateSalt [3], Nonce := [] }
    rfl

end TotpManager
